import Mathlib

/-
Verification of the generation-task broker in `klang/llm.py` (class `LLMClient`).

The broker turns expensive external generation calls (word meanings via an LLM,
illustrations, sounds) into at-most-once-per-identity resources:
  * per-kind dedup registry `events : Dict[identity, TaskEventContainer]`
    guarded by an `asyncio.Lock`;
  * per-kind bounded `asyncio.Queue` (capacity 1000) feeding a single worker
    coroutine per kind;
  * a `TaskEventContainer` pairs an `asyncio.Event` with an optional captured
    exception; all callers for one identity wait on the same container.

Shallow embedding notes.
  * asyncio is single-threaded cooperative scheduling: code between two
    `await` suspension points runs atomically.  The locked section of
    `wait_word_meanings` / `wait_word_sound` (registry lookup, insertion and
    `put_nowait`) contains no suspension point in its body, so it is modelled
    as one atomic step (`acquireOrJoin`).  The worker's per-task handling
    (dequeue, generate, `event.set()`, exception assignment) is likewise one
    step of the labelled transition system (`KStep.work`): the worker is the
    sole consumer and runs each task to resolution before popping the next,
    and no other task observes the container between `event.set()` and the
    `exception` assignment because both happen with no `await` in between.
  * External interactions (the OpenAI call, the HTTP call, `session.commit`)
    are nondeterministic; they enter the model as outcome parameters
    (`backend`, `commit`, `http`).
  * The `TaskEventContainer` placed in a queued task is the very object stored
    in the registry under the task's identity, and registry entries are never
    overwritten or removed; the model therefore keys all container access
    through the registry.
  * Python exceptions are represented by the inductive `Err`; raising is
    represented by explicit outcome values.
-/

namespace Klang

/-- Exceptions that can travel through the broker (`sqlalchemy.exc.OperationalError`,
backend/transport failures, storage failures, and the
`RuntimeError("LLM returned a null object")` raised on a null parse). -/
inductive Err where
  | operationalError (msg : String)
  | backendFailure (msg : String)
  | storeFailure (msg : String)
  | nullLLMObject
  deriving DecidableEq

/-- `TaskEventContainer` from llm.py: an `asyncio.Event` (here: `event = true`
iff `event.set()` has been called; the event is level-triggered) plus the
optional captured exception. -/
structure TaskEventContainer where
  event : Bool
  exception : Option Err
  deriving DecidableEq

/-- `PartOfSpeech` enum from llm.py. -/
inductive PartOfSpeech where
  | noun | verb | adjective | adverb | other
  deriving DecidableEq

/-- The `.value` of a `PartOfSpeech` member. -/
def PartOfSpeech.value : PartOfSpeech → String
  | .noun => "noun"
  | .verb => "verb"
  | .adjective => "adjective"
  | .adverb => "adverb"
  | .other => "other"

/-- `Gender` enum from llm.py. -/
inductive Gender where
  | male | female | neutral
  deriving DecidableEq

/-- The `.value` of a `Gender` member. -/
def Gender.value : Gender → String
  | .male => "male"
  | .female => "female"
  | .neutral => "neutral"

/-- `LLMWordTranslation` pydantic model. -/
structure LLMWordTranslation where
  translation : String
  description : String
  deriving DecidableEq

/-- `LLMWordMeaning` pydantic model. -/
structure LLMWordMeaning where
  part_of_speech : PartOfSpeech
  gender : Option Gender
  english_translation : LLMWordTranslation
  russian_translation : LLMWordTranslation
  deriving DecidableEq

/-- `LLMWord` pydantic model: the structured backend result. -/
structure LLMWord where
  word : String
  meanings : List LLMWordMeaning
  deriving DecidableEq

/-- Row of the `WordMeaningTranslation` table (fields set in
`_generate_word_meanings`). -/
structure WordMeaningTranslation where
  rating : Nat
  language : String
  translation : String
  description : String
  deriving DecidableEq

/-- Row of the `WordMeaning` table together with its `translations`
relationship (fields set in `_generate_word_meanings`). -/
structure WordMeaning where
  word : String
  part_of_speech : String
  gender : Option String
  translations : List WordMeaningTranslation
  deriving DecidableEq

/-- The durable store for the meanings kind: the set of persisted
`WordMeaning` rows. -/
abbrev Store := List WordMeaning

/-- `select(WordMeaning).where(WordMeaning.word == word)`. -/
def storeQuery (store : Store) (word : String) : List WordMeaning :=
  store.filter (fun m => m.word == word)

/-- The rating tuple `(100_000, 50_000, 10_000)` zipped against the backend's
meanings in `_generate_word_meanings`. -/
def ratings : List Nat := [100000, 50000, 10000]

/-- One iteration of the persistence loop in `_generate_word_meanings`: a
`WordMeaning` row with an English and a Russian translation, both carrying the
meaning's rating. -/
def buildMeaning (w : String) (m : LLMWordMeaning) (rating : Nat) : WordMeaning :=
  { word := w
    part_of_speech := m.part_of_speech.value
    gender := m.gender.map Gender.value
    translations := [
      { rating := rating
        language := "en"
        translation := m.english_translation.translation
        description := m.english_translation.description },
      { rating := rating
        language := "ru"
        translation := m.russian_translation.translation
        description := m.russian_translation.description } ] }

/-- The rows persisted by the `for llm_meaning, rating in zip(...)` loop of
`_generate_word_meanings` (python `zip` truncates to the shorter list). -/
def persistMeanings (lw : LLMWord) : List WordMeaning :=
  (lw.meanings.zip ratings).map (fun p => buildMeaning lw.word p.1 p.2)

/-- `LLMClient._generate_word_meanings`, with the two external interactions as
outcome parameters: `backend` is the OpenAI call (transport failure, or a
parsed object that may be null), `commit` is `session.commit()`
(`some e` if it raises).  Returns the store after the call together with the
exception it raised, if any.  Notes kept from the source:
  * the store is re-checked first and the call returns without any backend
    interaction when rows for the word already exist;
  * a null parsed object raises before any row is persisted (in CPython the
    `LLMLog` line's attribute access on `None` raises even before the explicit
    `RuntimeError("LLM returned a null object")` check; either way the task
    raises and nothing is persisted, which is what `nullLLMObject` stands for);
  * a failing commit rolls the session back, so the store is unchanged. -/
def generate_word_meanings (backend : Except Err (Option LLMWord)) (commit : Option Err)
    (store : Store) (word : String) : Store × Option Err :=
  if storeQuery store word ≠ [] then (store, none)
  else
    match backend with
    | .error e => (store, some e)
    | .ok none => (store, some .nullLLMObject)
    | .ok (some lw) =>
        match commit with
        | some e => (store, some e)
        | none => (store ++ persistMeanings lw, none)

/-- The durable store for the sound kind: the set of file paths that exist
(`mp3_path.exists()`). -/
abbrev SoundStore := List String

/-- `LLMClient._generate_word_sound` with the HTTP interaction and
`session.commit()` as outcome parameters.  The mp3 file is fully written
before the `LLMLog` commit, so a failing commit leaves the file in place
while the call still raises. -/
def generate_word_sound (http : Option Err) (commit : Option Err)
    (files : SoundStore) (mp3Path : String) : SoundStore × Option Err :=
  if mp3Path ∈ files then (files, none)
  else
    match http with
    | some e => (files, some e)
    | none =>
        match commit with
        | some e => (files ++ [mp3Path], some e)
        | none => (files ++ [mp3Path], none)

/-- Queue capacity fixed in `LLMClient.__init__`:
`asyncio.Queue[...](1000)` for each of the three kinds. -/
def queueCapacity : Nat := 1000

/-- Result of the locked section of a `wait_*` method: the caller found an
existing registry entry and will only wait (`joined`); it created the entry
and enqueued the task (`owned`); or it created the entry and
`queue.put_nowait` raised `asyncio.QueueFull` (`queueFullErr`). -/
inductive AcquireResult where
  | joined | owned | queueFullErr
  deriving DecidableEq

/-- The mutable state of one resource kind, mirroring the generic
`TaskContainer(Generic[T, S])` of llm.py (`events` dict, bounded `queue`)
together with that kind's durable store.  `S` is the identity type, `P` the
task-descriptor payload, `St` the store. -/
structure KindState (S P St : Type) where
  events : List (S × TaskEventContainer)
  queue : List P
  store : St
  deriving DecidableEq

/-- `events.get(id)`: python-dict lookup.  The registry only ever appends a
key that is absent, so an association list with `find?` is an exact model. -/
def lookupEvent {S : Type} [DecidableEq S]
    (events : List (S × TaskEventContainer)) (id : S) : Option TaskEventContainer :=
  (events.find? (fun p => p.1 = id)).map (fun p => p.2)

/-- Number of registry entries held for `id`. -/
def entryCount {S : Type} [DecidableEq S]
    (events : List (S × TaskEventContainer)) (id : S) : Nat :=
  events.countP (fun p => p.1 = id)

/-- Number of queued task descriptors whose identity is `id`. -/
def queueCount {S P : Type} [DecidableEq S] (taskId : P → S)
    (queue : List P) (id : S) : Nat :=
  queue.countP (fun t => taskId t = id)

/-- The worker's resolution of the container stored under `id`:
`event.set()` plus (on the error path) the `exception` assignment.  In the
source the worker mutates the container object carried by the task, which is
the same object as the registry entry for the task's identity. -/
def setResolved {S : Type} [DecidableEq S]
    (events : List (S × TaskEventContainer)) (id : S) (exc : Option Err) :
    List (S × TaskEventContainer) :=
  events.map (fun p => if p.1 = id then (p.1, ⟨true, exc⟩) else p)

/-- The locked section shared by `wait_word_meanings` (lines 255-262),
`wait_word_meaning_illustration` (295-307) and `wait_word_sound` (323-330):
under the kind's lock, look the identity up in `events`; if present, just
adopt that container; if absent, create an unresolved container, store it in
`events`, and `put_nowait` the freshly built task.  `put_nowait` raises
`QueueFull` iff the queue already holds at least `queueCapacity` items; the
registry insertion is NOT rolled back in that case because it textually
precedes the push.  The body has no `await`, so the whole section is one
atomic step. -/
def acquireOrJoin {S P St : Type} [DecidableEq S]
    (st : KindState S P St) (id : S) (task : P) :
    AcquireResult × KindState S P St :=
  match lookupEvent st.events id with
  | some _ => (.joined, st)
  | none =>
      if st.queue.length ≥ queueCapacity then
        (.queueFullErr, { st with events := st.events ++ [(id, ⟨false, none⟩)] })
      else
        (.owned, { st with events := st.events ++ [(id, ⟨false, none⟩)]
                           queue := st.queue ++ [task] })

/-- One iteration of a worker loop's per-task handling
(`_process_word_meanings` lines 166-180 and its illustration/sound twins):
pop the queue head, run the `_generate_*` body (`gen`, whose exception — if
any — is the second component), then `event.set()` and, on the error path,
capture the exception into the container.  Every exception raised by the
generate step is caught (`except OperationalError` / `except Exception`), so
this is a total function and the loop proceeds to the next task.  On an empty
queue the worker suspends in `queue.get()`: no state change. -/
def workerStep {S P St : Type} [DecidableEq S] (taskId : P → S)
    (gen : St → P → St × Option Err) (st : KindState S P St) : KindState S P St :=
  match st.queue with
  | [] => st
  | task :: rest =>
      let r := gen st.store task
      { events := setResolved st.events (taskId task) r.2
        queue := rest
        store := r.1 }

/-- `WordMeaningTask` from llm.py (its `event_container` field is the registry
entry for `word`, see the header note, so only the payload is kept). -/
structure WordMeaningTask where
  word : String
  deriving DecidableEq

/-- `WordSoundTask` from llm.py, payload fields only. -/
structure WordSoundTask where
  word : String
  mp3Path : String
  deriving DecidableEq

/-- State of the meanings kind (`_word_meaning_tasks` plus the `WordMeaning`
table). -/
abbrev MeaningsState := KindState String WordMeaningTask Store

/-- State of the sound kind (`_word_sound_tasks` plus the set of existing mp3
files). -/
abbrev SoundState := KindState String WordSoundTask SoundStore

/-- The meanings worker's generate step, as a function of the two external
outcomes. -/
def meaningsGen (backend : Except Err (Option LLMWord)) (commit : Option Err) :
    Store → WordMeaningTask → Store × Option Err :=
  fun store task => generate_word_meanings backend commit store task.word

/-- One per-task iteration of `_process_word_meanings`. -/
def meaningsWorkerStep (backend : Except Err (Option LLMWord)) (commit : Option Err)
    (st : MeaningsState) : MeaningsState :=
  workerStep (fun t => t.word) (meaningsGen backend commit) st

/-- The locked section of `wait_word_meanings` (lines 255-262). -/
def meaningsAcquire (st : MeaningsState) (word : String) :
    AcquireResult × MeaningsState :=
  acquireOrJoin st word ⟨word⟩

/-- The sound worker's generate step. -/
def soundGen (http : Option Err) (commit : Option Err) :
    SoundStore → WordSoundTask → SoundStore × Option Err :=
  fun files task => generate_word_sound http commit files task.mp3Path

/-- One per-task iteration of `_process_word_sounds`. -/
def soundWorkerStep (http : Option Err) (commit : Option Err)
    (st : SoundState) : SoundState :=
  workerStep (fun t => t.word) (soundGen http commit) st

/-- The locked section of `wait_word_sound` (lines 323-330). -/
def soundAcquire (st : SoundState) (word mp3Path : String) :
    AcquireResult × SoundState :=
  acquireOrJoin st word ⟨word, mp3Path⟩

/-- Externally observable actions performed by a `wait_*` call:
a durable-store read (a `SELECT` on `WordMeaning` keyed by word, or a
`path.exists()` check keyed by path), a registry insertion, a queue push. -/
inductive Effect where
  | storeRead (id : String)
  | registryInsert (id : String)
  | enqueue (id : String)
  deriving DecidableEq

/-- How a `wait_*` call leaves its synchronous prefix (everything up to the
first `await event_container.event.wait()`). -/
inductive CallStart where
  | returned (rows : List WordMeaning)
  | raisedQueueFull
  | waiting
  deriving DecidableEq

/-- `wait_word_meanings` up to the `await event_container.event.wait()`
(lines 247-262): initial store query with immediate return on a hit, then the
locked section; `asyncio.QueueFull` from `put_nowait` propagates out of the
call.  Returns the outcome, the kind state afterwards and the effects
performed. -/
def wait_word_meanings_start (st : MeaningsState) (word : String) :
    CallStart × MeaningsState × List Effect :=
  let rows := storeQuery st.store word
  if rows ≠ [] then (.returned rows, st, [.storeRead word])
  else
    match meaningsAcquire st word with
    | (.joined, st1) => (.waiting, st1, [.storeRead word])
    | (.owned, st1) =>
        (.waiting, st1, [.storeRead word, .registryInsert word, .enqueue word])
    | (.queueFullErr, st1) =>
        (.raisedQueueFull, st1, [.storeRead word, .registryInsert word])

/-- How `wait_word_meanings` finishes after its wait. -/
inductive WaitOutcome where
  | ok (rows : List WordMeaning)
  | raisedCaptured (e : Err)
  | raisedNoResults
  deriving DecidableEq

/-- `wait_word_meanings` after `event.wait()` returned (lines 265-271):
re-raise the captured exception if there is one; otherwise re-read the store,
raising `RuntimeError("LLM task complete, but no results found ...")` when it
is still empty.  `asyncio.Event` is level-triggered, so a waiter arriving
after resolution observes the same terminal container state as one that was
already waiting. -/
def wait_word_meanings_postwait (c : TaskEventContainer) (store : Store)
    (word : String) : WaitOutcome × List Effect :=
  match c.exception with
  | some e => (.raisedCaptured e, [])
  | none =>
      let rows := storeQuery store word
      if rows = [] then (.raisedNoResults, [.storeRead word])
      else (.ok rows, [.storeRead word])

/-- How a `wait_word_sound` call leaves its synchronous prefix. -/
inductive SoundCallStart where
  | returned
  | raisedQueueFull
  | waiting
  deriving DecidableEq

/-- `wait_word_sound` up to the `await event_container.event.wait()`
(lines 317-330): `mp3_path.exists()` with immediate return, then the locked
section (registry keyed by word). -/
def wait_word_sound_start (st : SoundState) (word mp3Path : String) :
    SoundCallStart × SoundState × List Effect :=
  if mp3Path ∈ st.store then (.returned, st, [.storeRead mp3Path])
  else
    match soundAcquire st word mp3Path with
    | (.joined, st1) => (.waiting, st1, [.storeRead mp3Path])
    | (.owned, st1) =>
        (.waiting, st1, [.storeRead mp3Path, .registryInsert word, .enqueue word])
    | (.queueFullErr, st1) =>
        (.raisedQueueFull, st1, [.storeRead mp3Path, .registryInsert word])

/-- How `wait_word_sound` finishes after its wait. -/
inductive SoundWaitOutcome where
  | ok
  | raisedCaptured (e : Err)
  | raisedNoResults
  deriving DecidableEq

/-- `wait_word_sound` after `event.wait()` returned (lines 332-337). -/
def wait_word_sound_postwait (c : TaskEventContainer) (files : SoundStore)
    (mp3Path : String) : SoundWaitOutcome × List Effect :=
  match c.exception with
  | some e => (.raisedCaptured e, [])
  | none =>
      if mp3Path ∈ files then (.ok, [.storeRead mp3Path])
      else (.raisedNoResults, [.storeRead mp3Path])

/-- Observable label of one atomic step of a kind's pipeline: a caller runs
the locked section for an identity (with the `AcquireResult` it got), or the
worker handles one task (with a flag telling whether the handling reached the
Generation Backend, i.e. whether the worker's store re-check missed). -/
inductive Label (S : Type) where
  | acq (id : S) (r : AcquireResult)
  | work (id : S) (backendCalled : Bool)
  deriving DecidableEq

/-- Atomic steps of one kind's pipeline (asyncio interleaving: steps of
different callers and of the worker interleave in any order, but each step is
atomic, see the header note).
  * `mkTask` builds the task descriptor a caller pushes for an identity
    (for meanings `fun w => ⟨w⟩`; for sound the word with its target path);
  * `taskId` reads a task's identity back (`fun t => t.word`);
  * `hasIt st id` is the worker's store re-check, which guards the backend
    call inside `_generate_*`;
  * `G` delimits the generate-step functions the worker can run, one
    nondeterministic external outcome per dequeued task. -/
inductive KStep {S P St : Type} [DecidableEq S] (mkTask : S → P) (taskId : P → S)
    (hasIt : St → S → Bool) (G : (St → P → St × Option Err) → Prop) :
    KindState S P St → Label S → KindState S P St → Prop where
  | acq (st : KindState S P St) (id : S) :
      KStep mkTask taskId hasIt G st (.acq id (acquireOrJoin st id (mkTask id)).1)
        (acquireOrJoin st id (mkTask id)).2
  | work (st : KindState S P St) (task : P) (rest : List P)
      (g : St → P → St × Option Err) (hq : st.queue = task :: rest) (hg : G g) :
      KStep mkTask taskId hasIt G st
        (.work (taskId task) (!hasIt st.store (taskId task)))
        (workerStep taskId g st)

/-- Finite executions of one kind's pipeline, recording the labels. -/
inductive KTrace {S P St : Type} [DecidableEq S] (mkTask : S → P) (taskId : P → S)
    (hasIt : St → S → Bool) (G : (St → P → St × Option Err) → Prop) :
    KindState S P St → List (Label S) → KindState S P St → Prop where
  | nil (st : KindState S P St) : KTrace mkTask taskId hasIt G st [] st
  | cons {st st1 st2 : KindState S P St} {l : Label S} {ls : List (Label S)}
      (hstep : KStep mkTask taskId hasIt G st l st1)
      (htr : KTrace mkTask taskId hasIt G st1 ls st2) :
      KTrace mkTask taskId hasIt G st (l :: ls) st2

/-- Labels that create the registry entry for `id` (the acquiring caller found
no entry: it stored a fresh container, whether or not the push succeeded). -/
def isCreateAcq {S : Type} [DecidableEq S] (id : S) : Label S → Bool
  | .acq i .owned => i = id
  | .acq i .queueFullErr => i = id
  | _ => false

/-- Labels where a caller became the owner for `id` and enqueued its task. -/
def isOwnedAcq {S : Type} [DecidableEq S] (id : S) : Label S → Bool
  | .acq i .owned => i = id
  | _ => false

/-- Labels where the worker handled a task for `id`. -/
def isWork {S : Type} [DecidableEq S] (id : S) : Label S → Bool
  | .work i _ => i = id
  | _ => false

/-- Labels where the worker's handling of a task for `id` reached the
Generation Backend. -/
def isBackendWork {S : Type} [DecidableEq S] (id : S) : Label S → Bool
  | .work i b => i = id && b
  | _ => false

/-- How many steps of a trace create the entry for `id`. -/
def createCount {S : Type} [DecidableEq S] (tr : List (Label S)) (id : S) : Nat :=
  tr.countP (isCreateAcq id)

/-- How many steps of a trace enqueue a task for `id`. -/
def ownedCount {S : Type} [DecidableEq S] (tr : List (Label S)) (id : S) : Nat :=
  tr.countP (isOwnedAcq id)

/-- How many tasks for `id` the worker handled along a trace. -/
def workCount {S : Type} [DecidableEq S] (tr : List (Label S)) (id : S) : Nat :=
  tr.countP (isWork id)

/-- How many times the Generation Backend was invoked for `id` along a
trace. -/
def backendCount {S : Type} [DecidableEq S] (tr : List (Label S)) (id : S) : Nat :=
  tr.countP (isBackendWork id)

/-- The identities enqueued along a trace, in push order. -/
def ownsOf {S : Type} : List (Label S) → List S :=
  List.filterMap (fun l => match l with
    | .acq i .owned => some i
    | _ => none)

/-- The identities dequeued and processed by the worker along a trace, in pop
order. -/
def popsOf {S : Type} : List (Label S) → List S :=
  List.filterMap (fun l => match l with
    | .work i _ => some i
    | _ => none)

/-- The generate steps `_process_word_meanings` can run: one outcome of the
OpenAI call and one of the commit. -/
def MeaningsGens (g : Store → WordMeaningTask → Store × Option Err) : Prop :=
  ∃ backend commit, g = meaningsGen backend commit

/-- The worker's store re-check for the meanings kind (rows exist for the
word). -/
def meaningsHas (store : Store) (word : String) : Bool :=
  decide (storeQuery store word ≠ [])

/-- Atomic steps of the meanings pipeline. -/
def MeaningsStep : MeaningsState → Label String → MeaningsState → Prop :=
  KStep (fun w => ⟨w⟩) (fun t => t.word) meaningsHas MeaningsGens

/-- Executions of the meanings pipeline. -/
def MeaningsTrace : MeaningsState → List (Label String) → MeaningsState → Prop :=
  KTrace (fun w => ⟨w⟩) (fun t => t.word) meaningsHas MeaningsGens

/-- The generate steps `_process_word_sounds` can run: one outcome of the
Narakeet HTTP call and one of the commit. -/
def SoundGens (g : SoundStore → WordSoundTask → SoundStore × Option Err) : Prop :=
  ∃ http commit, g = soundGen http commit

/-- The sound worker's store re-check for an identity, given the path layout
`pathOf` the callers use (the target mp3 path is a function of the word). -/
def soundHasPath (pathOf : String → String) (files : SoundStore) (word : String) : Bool :=
  decide (pathOf word ∈ files)

/-- Atomic steps of the sound pipeline. -/
def SoundStep (pathOf : String → String) :
    SoundState → Label String → SoundState → Prop :=
  KStep (fun w => ⟨w, pathOf w⟩) (fun t => t.word) (soundHasPath pathOf) SoundGens

section RegistryLemmas

variable {S : Type} [DecidableEq S]

theorem lookupEvent_cons (p : S × TaskEventContainer)
    (ps : List (S × TaskEventContainer)) (id : S) :
    lookupEvent (p :: ps) id = if p.1 = id then some p.2 else lookupEvent ps id := by
  by_cases h : p.1 = id <;> simp [lookupEvent, List.find?_cons, h]

theorem lookupEvent_eq_none_iff (ev : List (S × TaskEventContainer)) (id : S) :
    lookupEvent ev id = none ↔ entryCount ev id = 0 := by
  simp [lookupEvent, entryCount, List.find?_eq_none, List.countP_eq_zero]

theorem lookupEvent_append (l1 l2 : List (S × TaskEventContainer)) (id : S) :
    lookupEvent (l1 ++ l2) id = (lookupEvent l1 id).or (lookupEvent l2 id) := by
  simp only [lookupEvent, List.find?_append]
  cases l1.find? (fun p => decide (p.1 = id)) <;> simp

theorem lookupEvent_single_self (id : S) (c : TaskEventContainer) :
    lookupEvent [(id, c)] id = some c := by
  simp [lookupEvent_cons]

theorem lookupEvent_single_other {id2 id : S} (h : id2 ≠ id) (c : TaskEventContainer) :
    lookupEvent [(id2, c)] id = none := by
  simp [lookupEvent_cons, h]
  rfl

theorem setResolved_cons (p : S × TaskEventContainer)
    (ps : List (S × TaskEventContainer)) (id : S) (exc : Option Err) :
    setResolved (p :: ps) id exc
      = (if p.1 = id then (p.1, (⟨true, exc⟩ : TaskEventContainer)) else p)
          :: setResolved ps id exc := rfl

theorem lookupEvent_setResolved_self (ev : List (S × TaskEventContainer)) (id : S)
    (exc : Option Err) :
    lookupEvent (setResolved ev id exc) id
      = (lookupEvent ev id).map (fun _ => (⟨true, exc⟩ : TaskEventContainer)) := by
  induction ev with
  | nil => rfl
  | cons p ps ih =>
      by_cases h : p.1 = id
      · simp [setResolved_cons, lookupEvent_cons, h]
      · simp [setResolved_cons, lookupEvent_cons, h, ih]

theorem lookupEvent_setResolved_other (ev : List (S × TaskEventContainer))
    {id2 id : S} (h : id2 ≠ id) (exc : Option Err) :
    lookupEvent (setResolved ev id2 exc) id = lookupEvent ev id := by
  induction ev with
  | nil => rfl
  | cons p ps ih =>
      by_cases hp : p.1 = id2
      · have hpid : p.1 ≠ id := by rw [hp]; exact h
        simp [setResolved_cons, lookupEvent_cons, hp, hpid, ih, h]
      · by_cases hq : p.1 = id
        · simp [setResolved_cons, lookupEvent_cons, hp, hq, Ne.symm h]
        · simp [setResolved_cons, lookupEvent_cons, hp, hq, ih]

theorem entryCount_cons (p : S × TaskEventContainer)
    (ps : List (S × TaskEventContainer)) (id : S) :
    entryCount (p :: ps) id = entryCount ps id + (if p.1 = id then 1 else 0) := by
  by_cases h : p.1 = id <;> simp [entryCount, List.countP_cons, h]

theorem entryCount_append (l1 l2 : List (S × TaskEventContainer)) (id : S) :
    entryCount (l1 ++ l2) id = entryCount l1 id + entryCount l2 id := by
  simp [entryCount, List.countP_append]

theorem entryCount_setResolved (ev : List (S × TaskEventContainer)) (id2 id : S)
    (exc : Option Err) :
    entryCount (setResolved ev id2 exc) id = entryCount ev id := by
  induction ev with
  | nil => rfl
  | cons p ps ih =>
      by_cases h : p.1 = id2
      · simp [setResolved_cons, entryCount_cons, h, ih]
      · simp [setResolved_cons, entryCount_cons, h, ih]

end RegistryLemmas

section StepLemmas

variable {S P St : Type} [DecidableEq S]
variable {mkTask : S → P} {taskId : P → S} {hasIt : St → S → Bool}
variable {G : (St → P → St × Option Err) → Prop}

theorem acquireOrJoin_of_present {st : KindState S P St} {id : S} {c : TaskEventContainer}
    (h : lookupEvent st.events id = some c) (task : P) :
    acquireOrJoin st id task = (.joined, st) := by
  simp [acquireOrJoin, h]

theorem acquireOrJoin_of_absent_full {st : KindState S P St} {id : S}
    (h : lookupEvent st.events id = none) (hfull : st.queue.length ≥ queueCapacity)
    (task : P) :
    acquireOrJoin st id task
      = (.queueFullErr, { st with events := st.events ++ [(id, ⟨false, none⟩)] }) := by
  simp [acquireOrJoin, h, hfull]

theorem acquireOrJoin_of_absent_room {st : KindState S P St} {id : S}
    (h : lookupEvent st.events id = none) (hroom : st.queue.length < queueCapacity)
    (task : P) :
    acquireOrJoin st id task
      = (.owned, { st with events := st.events ++ [(id, ⟨false, none⟩)]
                           queue := st.queue ++ [task] }) := by
  have hnf : ¬ st.queue.length ≥ queueCapacity := by omega
  simp [acquireOrJoin, h, hnf]

theorem workerStep_cons {st : KindState S P St} {task : P} {rest : List P}
    (g : St → P → St × Option Err) (hq : st.queue = task :: rest) :
    workerStep taskId g st
      = { events := setResolved st.events (taskId task) (g st.store task).2
          queue := rest
          store := (g st.store task).1 } := by
  obtain ⟨ev, q, s⟩ := st
  dsimp only at hq
  subst hq
  rfl

theorem kstep_acq_inv {st st' : KindState S P St} {id : S} {r : AcquireResult}
    (h : KStep mkTask taskId hasIt G st (.acq id r) st') :
    r = (acquireOrJoin st id (mkTask id)).1 ∧ st' = (acquireOrJoin st id (mkTask id)).2 := by
  cases h with
  | acq id2 => exact ⟨rfl, rfl⟩

theorem kstep_work_inv {st st' : KindState S P St} {id : S} {b : Bool}
    (h : KStep mkTask taskId hasIt G st (.work id b) st') :
    ∃ task rest g, st.queue = task :: rest ∧ G g ∧ taskId task = id ∧
      b = !hasIt st.store id ∧ st' = workerStep taskId g st := by
  cases h with
  | work task rest g hq hg => exact ⟨task, rest, g, hq, hg, rfl, rfl, rfl⟩

theorem kstep_entry_persists {st st' : KindState S P St} {l : Label S} {id : S}
    {c : TaskEventContainer}
    (h : KStep mkTask taskId hasIt G st l st') (hc : lookupEvent st.events id = some c) :
    ∃ c', lookupEvent st'.events id = some c' := by
  cases h with
  | acq id2 =>
      cases hl : lookupEvent st.events id2 with
      | some c2 =>
          rw [acquireOrJoin_of_present hl]
          exact ⟨c, hc⟩
      | none =>
          by_cases hfull : st.queue.length ≥ queueCapacity
          · rw [acquireOrJoin_of_absent_full hl hfull]
            refine ⟨c, ?_⟩
            rw [lookupEvent_append, hc]
            rfl
          · rw [acquireOrJoin_of_absent_room hl (by omega)]
            refine ⟨c, ?_⟩
            rw [lookupEvent_append, hc]
            rfl
  | work task rest g hq hg =>
      rw [workerStep_cons g hq]
      by_cases hid : taskId task = id
      · subst hid
        refine ⟨⟨true, (g st.store task).2⟩, ?_⟩
        rw [lookupEvent_setResolved_self, hc]
        rfl
      · refine ⟨c, ?_⟩
        rw [lookupEvent_setResolved_other st.events hid, hc]

theorem ktrace_entry_persists {st st' : KindState S P St} {tr : List (Label S)} {id : S}
    {c : TaskEventContainer}
    (h : KTrace mkTask taskId hasIt G st tr st') (hc : lookupEvent st.events id = some c) :
    ∃ c', lookupEvent st'.events id = some c' := by
  induction h generalizing c with
  | nil st => exact ⟨c, hc⟩
  | cons hstep htr ih =>
      obtain ⟨c1, hc1⟩ := kstep_entry_persists hstep hc
      exact ih hc1

theorem entryCount_single {id2 id : S} (c : TaskEventContainer) :
    entryCount [(id2, c)] id = if id2 = id then 1 else 0 := by
  by_cases h : id2 = id <;> simp [entryCount_cons, entryCount, h]

theorem entryCount_kstep {st st' : KindState S P St} {l : Label S}
    (h : KStep mkTask taskId hasIt G st l st') (id : S) :
    entryCount st'.events id
      = entryCount st.events id + (if isCreateAcq id l then 1 else 0) := by
  cases h with
  | acq id2 =>
      cases hl : lookupEvent st.events id2 with
      | some c2 =>
          rw [acquireOrJoin_of_present hl]
          simp [isCreateAcq]
      | none =>
          by_cases hfull : st.queue.length ≥ queueCapacity
          · rw [acquireOrJoin_of_absent_full hl hfull]
            by_cases hid : id2 = id <;>
              simp [entryCount_append, entryCount_single, isCreateAcq, hid]
          · rw [acquireOrJoin_of_absent_room hl (by omega)]
            by_cases hid : id2 = id <;>
              simp [entryCount_append, entryCount_single, isCreateAcq, hid]
  | work task rest g hq hg =>
      rw [workerStep_cons g hq]
      simp [entryCount_setResolved, isCreateAcq]

theorem entryCount_ktrace {st st' : KindState S P St} {tr : List (Label S)}
    (h : KTrace mkTask taskId hasIt G st tr st') (id : S) :
    entryCount st'.events id = entryCount st.events id + createCount tr id := by
  induction h with
  | nil st => simp [createCount]
  | cons hstep htr ih =>
      rw [ih, entryCount_kstep hstep id]
      simp only [createCount, List.countP_cons]
      omega

theorem entryCount_le_one_kstep {st st' : KindState S P St} {l : Label S}
    (h : KStep mkTask taskId hasIt G st l st') (id : S)
    (hle : entryCount st.events id ≤ 1) : entryCount st'.events id ≤ 1 := by
  cases h with
  | acq id2 =>
      cases hl : lookupEvent st.events id2 with
      | some c2 =>
          rw [acquireOrJoin_of_present hl]
          exact hle
      | none =>
          have h0 : entryCount st.events id2 = 0 := (lookupEvent_eq_none_iff _ _).mp hl
          by_cases hfull : st.queue.length ≥ queueCapacity
          · rw [acquireOrJoin_of_absent_full hl hfull]
            by_cases hid : id2 = id
            · subst hid
              simp [entryCount_append, entryCount_single, h0]
            · simp [entryCount_append, entryCount_single, hid]
              exact hle
          · rw [acquireOrJoin_of_absent_room hl (by omega)]
            by_cases hid : id2 = id
            · subst hid
              simp [entryCount_append, entryCount_single, h0]
            · simp [entryCount_append, entryCount_single, hid]
              exact hle
  | work task rest g hq hg =>
      rw [workerStep_cons g hq]
      simpa [entryCount_setResolved] using hle

theorem entryCount_le_one_ktrace {st st' : KindState S P St} {tr : List (Label S)}
    (h : KTrace mkTask taskId hasIt G st tr st') (id : S)
    (hle : entryCount st.events id ≤ 1) : entryCount st'.events id ≤ 1 := by
  induction h with
  | nil st => exact hle
  | cons hstep htr ih => exact ih (entryCount_le_one_kstep hstep _ hle)

end StepLemmas

section QueueLemmas

variable {S P St : Type} [DecidableEq S]
variable {mkTask : S → P} {taskId : P → S} {hasIt : St → S → Bool}
variable {G : (St → P → St × Option Err) → Prop}

theorem countP_le_countP {α : Type} (p q : α → Bool) (l : List α)
    (h : ∀ a, p a = true → q a = true) : l.countP p ≤ l.countP q := by
  induction l with
  | nil => simp
  | cons a l ih =>
      by_cases hp : p a
      · simp [List.countP_cons, hp, h a hp]
        omega
      · by_cases hq : q a <;> simp [List.countP_cons, hp, hq] <;> omega

theorem queueCount_append (q1 q2 : List P) (id : S) :
    queueCount taskId (q1 ++ q2) id = queueCount taskId q1 id + queueCount taskId q2 id := by
  simp [queueCount, List.countP_append]

theorem queueCount_single (task : P) (id : S) :
    queueCount taskId [task] id = if taskId task = id then 1 else 0 := by
  by_cases h : taskId task = id <;> simp [queueCount, List.countP_cons, h]

theorem queueCount_cons (task : P) (q : List P) (id : S) :
    queueCount taskId (task :: q) id
      = queueCount taskId q id + (if taskId task = id then 1 else 0) := by
  by_cases h : taskId task = id <;> simp [queueCount, List.countP_cons, h]

theorem queueCount_kstep (hmk : ∀ i, taskId (mkTask i) = i)
    {st st' : KindState S P St} {l : Label S}
    (h : KStep mkTask taskId hasIt G st l st') (id : S) :
    queueCount taskId st'.queue id + (if isWork id l then 1 else 0)
      = queueCount taskId st.queue id + (if isOwnedAcq id l then 1 else 0) := by
  cases h with
  | acq id2 =>
      cases hl : lookupEvent st.events id2 with
      | some c2 =>
          rw [acquireOrJoin_of_present hl]
          simp [isWork, isOwnedAcq]
      | none =>
          by_cases hfull : st.queue.length ≥ queueCapacity
          · rw [acquireOrJoin_of_absent_full hl hfull]
            simp [isWork, isOwnedAcq]
          · rw [acquireOrJoin_of_absent_room hl (by omega)]
            by_cases hid : id2 = id <;>
              simp [isWork, isOwnedAcq, hid, queueCount_append, queueCount_single, hmk]
  | work task rest g hq hg =>
      rw [workerStep_cons g hq]
      by_cases hid : taskId task = id <;>
        simp [isWork, isOwnedAcq, hid, hq, queueCount_cons]

theorem queueCount_ktrace (hmk : ∀ i, taskId (mkTask i) = i)
    {st st' : KindState S P St} {tr : List (Label S)}
    (h : KTrace mkTask taskId hasIt G st tr st') (id : S) :
    queueCount taskId st'.queue id + workCount tr id
      = queueCount taskId st.queue id + ownedCount tr id := by
  induction h with
  | nil st => simp [workCount, ownedCount]
  | cons hstep htr ih =>
      have hs := queueCount_kstep hmk hstep id
      simp only [workCount, ownedCount, List.countP_cons] at *
      omega

theorem ktrace_append_inv {st st2 : KindState S P St} {pre post : List (Label S)}
    {l : Label S}
    (h : KTrace mkTask taskId hasIt G st (pre ++ l :: post) st2) :
    ∃ stm stm', KTrace mkTask taskId hasIt G st pre stm ∧
      KStep mkTask taskId hasIt G stm l stm' ∧
      KTrace mkTask taskId hasIt G stm' post st2 := by
  induction pre generalizing st with
  | nil =>
      simp only [List.nil_append] at h
      cases h with
      | cons hstep htr => exact ⟨st, _, KTrace.nil st, hstep, htr⟩
  | cons l0 pre ih =>
      simp only [List.cons_append] at h
      cases h with
      | cons hstep htr =>
          obtain ⟨stm, stm', h1, h2, h3⟩ := ih htr
          exact ⟨stm, stm', KTrace.cons hstep h1, h2, h3⟩

theorem lookupEvent_none_kstep {st st' : KindState S P St} {l : Label S} {id : S}
    (h : KStep mkTask taskId hasIt G st l st')
    (hnone : lookupEvent st.events id = none) (hnl : ∀ r, l ≠ .acq id r) :
    lookupEvent st'.events id = none := by
  cases h with
  | acq id2 =>
      have hne : id2 ≠ id := by
        intro hcontra
        subst hcontra
        exact hnl _ rfl
      cases hl : lookupEvent st.events id2 with
      | some c2 =>
          rw [acquireOrJoin_of_present hl]
          exact hnone
      | none =>
          by_cases hfull : st.queue.length ≥ queueCapacity
          · rw [acquireOrJoin_of_absent_full hl hfull]
            rw [lookupEvent_append, hnone, lookupEvent_single_other hne]
            rfl
          · rw [acquireOrJoin_of_absent_room hl (by omega)]
            rw [lookupEvent_append, hnone, lookupEvent_single_other hne]
            rfl
  | work task rest g hq hg =>
      rw [workerStep_cons g hq]
      by_cases hid : taskId task = id
      · subst hid
        rw [lookupEvent_setResolved_self, hnone]
        rfl
      · rw [lookupEvent_setResolved_other st.events hid]
        exact hnone

theorem lookupEvent_none_ktrace {st st' : KindState S P St} {tr : List (Label S)} {id : S}
    (h : KTrace mkTask taskId hasIt G st tr st')
    (hnone : lookupEvent st.events id = none)
    (hnl : ∀ r, (Label.acq id r) ∉ tr) :
    lookupEvent st'.events id = none := by
  induction h with
  | nil st => exact hnone
  | cons hstep htr ih =>
      refine ih (lookupEvent_none_kstep hstep hnone ?_) ?_
      · intro r hcontra
        exact hnl r (by rw [hcontra]; exact List.mem_cons_self _ _)
      · intro r hcontra
        exact hnl r (List.mem_cons_of_mem _ hcontra)

theorem fifo_ktrace (hmk : ∀ i, taskId (mkTask i) = i)
    {st st' : KindState S P St} {tr : List (Label S)}
    (h : KTrace mkTask taskId hasIt G st tr st') :
    st.queue.map taskId ++ ownsOf tr = popsOf tr ++ st'.queue.map taskId := by
  induction h with
  | nil st => simp [ownsOf, popsOf]
  | cons hstep htr ih =>
      rename_i st0 st1 st2 l ls
      cases hstep with
      | acq id2 =>
          cases hl : lookupEvent st0.events id2 with
          | some c2 =>
              rw [acquireOrJoin_of_present hl] at ih ⊢
              simpa [ownsOf, popsOf] using ih
          | none =>
              by_cases hfull : st0.queue.length ≥ queueCapacity
              · rw [acquireOrJoin_of_absent_full hl hfull] at ih ⊢
                simpa [ownsOf, popsOf] using ih
              · rw [acquireOrJoin_of_absent_room hl (by omega)] at ih ⊢
                simpa [ownsOf, popsOf, hmk] using ih
      | work task rest g hq hg =>
          rw [workerStep_cons g hq] at ih
          simp only at ih
          rw [hq]
          simpa [ownsOf, popsOf] using ih

end QueueLemmas

/-- The meanings pipeline really does take the generic steps: a caller running
the locked section of `wait_word_meanings` is an `acq` step. -/
theorem meaningsStep_acq (st : MeaningsState) (word : String) :
    MeaningsStep st (.acq word (meaningsAcquire st word).1) (meaningsAcquire st word).2 :=
  KStep.acq st word

/-- The meanings worker handling one queued task is a `work` step. -/
theorem meaningsStep_work (st : MeaningsState) (task : WordMeaningTask)
    (rest : List WordMeaningTask) (backend : Except Err (Option LLMWord))
    (commit : Option Err) (hq : st.queue = task :: rest) :
    MeaningsStep st (.work task.word (!meaningsHas st.store task.word))
      (meaningsWorkerStep backend commit st) :=
  KStep.work st task rest (meaningsGen backend commit) hq ⟨backend, commit, rfl⟩

section PersistLemmas

theorem map_snd_zip_eq_take {α β : Type} :
    ∀ (l1 : List α) (l2 : List β), (l1.zip l2).map Prod.snd = l2.take l1.length
  | [], l2 => by simp
  | a :: l1, [] => by simp
  | a :: l1, b :: l2 => by simp [map_snd_zip_eq_take l1 l2]

theorem rating_mem_buildMeaning {w : String} {m : LLMWordMeaning} {r : Nat}
    {t : WordMeaningTranslation} (h : t ∈ (buildMeaning w m r).translations) :
    t.rating = r := by
  simp only [buildMeaning, List.mem_cons, List.mem_singleton, List.not_mem_nil,
    or_false] at h
  rcases h with h | h <;> subst h <;> rfl

theorem pairwise_ratings_take (n : Nat) :
    (ratings.take n).Pairwise (fun a b => a > b) := by
  match n with
  | 0 => simp
  | 1 => simp [ratings]
  | 2 =>
      rw [show ratings.take 2 = [100000, 50000] from rfl]
      decide
  | (k + 3) =>
      rw [List.take_of_length_le (by simp [ratings])]
      decide

theorem persistMeanings_languages_ratings (w : String) :
    ∀ (ms : List LLMWordMeaning) (rs : List Nat),
      ((ms.zip rs).map (fun p => buildMeaning w p.1 p.2)).map
          (fun m => m.translations.map (fun t => (t.language, t.rating)))
        = (rs.take ms.length).map (fun r => [("en", r), ("ru", r)])
  | [], rs => by simp
  | m :: ms, [] => by simp
  | m :: ms, r :: rs => by
      simp only [List.zip_cons_cons, List.map_cons, List.length_cons, List.take_succ_cons]
      rw [persistMeanings_languages_ratings w ms rs]
      rfl

end PersistLemmas

/-- Claim C8: when a meanings task persists a non-null backend result, every
persisted `WordMeaning` row carries exactly two translation rows — English
then Russian — sharing that meaning's rating, and the ratings assigned to
successive meanings in the backend's list order are the strictly decreasing
prefix 100000, 50000, 10000 of `ratings`, so the backend's first meaning
ranks highest. -/
theorem ranked_meanings_persistence (lw : LLMWord) :
    ((persistMeanings lw).map
        (fun m => m.translations.map (fun t => (t.language, t.rating))))
      = (ratings.take lw.meanings.length).map (fun r => [("en", r), ("ru", r)]) ∧
    (persistMeanings lw).Pairwise (fun m1 m2 =>
      ∀ t1 ∈ m1.translations, ∀ t2 ∈ m2.translations, t1.rating > t2.rating) := by
  constructor
  · exact persistMeanings_languages_ratings lw.word lw.meanings ratings
  · have h2 : ((lw.meanings.zip ratings).map Prod.snd).Pairwise (fun a b => a > b) := by
      rw [map_snd_zip_eq_take]
      exact pairwise_ratings_take lw.meanings.length
    have hp := List.pairwise_map.mp h2
    unfold persistMeanings
    rw [List.pairwise_map]
    refine hp.imp ?_
    intro p q hpq t1 ht1 t2 ht2
    rw [rating_mem_buildMeaning ht1, rating_mem_buildMeaning ht2]
    exact hpq

/-- Claim C4: a waiting `materialize` call raises the
"task complete, but no results found" error exactly when the signal it waited
on carries no captured exception and the post-wait re-read (row query for
meanings, file-existence check for sound) still finds nothing; a captured
exception is re-raised instead, and a successful re-read returns the rows. -/
theorem inconsistent_state_raise_iff (c : TaskEventContainer) (store : Store)
    (files : SoundStore) (word mp3Path : String) :
    ((wait_word_meanings_postwait c store word).1 = .raisedNoResults
        ↔ c.exception = none ∧ storeQuery store word = []) ∧
    (c.exception = none → storeQuery store word ≠ [] →
        (wait_word_meanings_postwait c store word).1 = .ok (storeQuery store word)) ∧
    (∀ e, c.exception = some e →
        (wait_word_meanings_postwait c store word).1 = .raisedCaptured e) ∧
    ((wait_word_sound_postwait c files mp3Path).1 = .raisedNoResults
        ↔ c.exception = none ∧ mp3Path ∉ files) ∧
    (∀ e, c.exception = some e →
        (wait_word_sound_postwait c files mp3Path).1 = .raisedCaptured e) := by
  obtain ⟨ev, exc⟩ := c
  cases exc with
  | some e =>
      refine ⟨?_, ?_, ?_, ?_, ?_⟩ <;>
        simp [wait_word_meanings_postwait, wait_word_sound_postwait]
  | none =>
      by_cases hrows : storeQuery store word = [] <;>
        by_cases hfile : mp3Path ∈ files <;>
        refine ⟨?_, ?_, ?_, ?_, ?_⟩ <;>
        simp [wait_word_meanings_postwait, wait_word_sound_postwait, hrows, hfile]

/-- Witness for C4 at a concrete resolved-ok container and empty store. -/
theorem inconsistent_state_raise_iff_witness :
    (wait_word_meanings_postwait ⟨true, none⟩ [] "haus").1 = .raisedNoResults :=
  (inconsistent_state_raise_iff ⟨true, none⟩ [] [] "haus" "haus.mp3").1.mpr ⟨rfl, rfl⟩

/-- Claim C3: an identity already present in the durable store (rows exist for
the word; the mp3 file exists) makes `materialize` return that stored result
immediately: the state — registry and queue included — is unchanged, the only
effect is the store read, and the call never reaches the locked section, so
no task is enqueued and the Generation Backend (only ever invoked by the
worker on dequeued tasks) is not invoked. -/
theorem idempotent_reentry (st : MeaningsState) (sst : SoundState)
    (word mp3Path : String)
    (hrows : storeQuery st.store word ≠ [])
    (hfile : mp3Path ∈ sst.store) :
    wait_word_meanings_start st word
      = (.returned (storeQuery st.store word), st, [.storeRead word]) ∧
    wait_word_sound_start sst word mp3Path
      = (.returned, sst, [.storeRead mp3Path]) := by
  constructor
  · simp [wait_word_meanings_start, hrows]
  · simp [wait_word_sound_start, hfile]

/-- Witness for C3 at a concrete store that already holds a row for "haus"
and a file system that already holds "haus.mp3". -/
theorem idempotent_reentry_witness :
    wait_word_meanings_start ⟨[], [], [⟨"haus", "noun", none, []⟩]⟩ "haus"
      = (.returned (storeQuery [⟨"haus", "noun", none, []⟩] "haus"),
         ⟨[], [], [⟨"haus", "noun", none, []⟩]⟩, [.storeRead "haus"]) ∧
    wait_word_sound_start ⟨[], [], ["haus.mp3"]⟩ "haus" "haus.mp3"
      = (.returned, ⟨[], [], ["haus.mp3"]⟩, [.storeRead "haus.mp3"]) :=
  idempotent_reentry ⟨[], [], [⟨"haus", "noun", none, []⟩]⟩ ⟨[], [], ["haus.mp3"]⟩
    "haus" "haus.mp3" (by decide) (by decide)

/-- Claim C5: each kind's queue is constructed with capacity 1000
(`queueCapacity`), and a caller that becomes first owner while the kind's
queue is already full gets the `QueueFull` error synchronously from
`put_nowait` inside the locked section — the call neither blocks nor swallows
the error: its outcome is `raisedQueueFull`. -/
theorem backpressure_synchronous :
    queueCapacity = 1000 ∧
    (∀ (st : MeaningsState) (word : String),
      storeQuery st.store word = [] →
      lookupEvent st.events word = none →
      st.queue.length ≥ queueCapacity →
      wait_word_meanings_start st word
        = (.raisedQueueFull,
           { st with events := st.events ++ [(word, ⟨false, none⟩)] },
           [.storeRead word, .registryInsert word])) ∧
    (∀ (sst : SoundState) (word mp3Path : String),
      mp3Path ∉ sst.store →
      lookupEvent sst.events word = none →
      sst.queue.length ≥ queueCapacity →
      wait_word_sound_start sst word mp3Path
        = (.raisedQueueFull,
           { sst with events := sst.events ++ [(word, ⟨false, none⟩)] },
           [.storeRead mp3Path, .registryInsert word])) := by
  refine ⟨rfl, ?_, ?_⟩
  · intro st word h1 h2 h3
    have hacq : meaningsAcquire st word
        = (.queueFullErr, { st with events := st.events ++ [(word, ⟨false, none⟩)] }) :=
      acquireOrJoin_of_absent_full h2 h3 _
    simp [wait_word_meanings_start, h1, hacq]
  · intro sst word mp3Path h1 h2 h3
    have hacq : soundAcquire sst word mp3Path
        = (.queueFullErr, { sst with events := sst.events ++ [(word, ⟨false, none⟩)] }) :=
      acquireOrJoin_of_absent_full h2 h3 _
    simp [wait_word_sound_start, h1, hacq]

/-- Witness for C5 at a concrete meanings state whose queue holds exactly
1000 task descriptors. -/
theorem backpressure_synchronous_witness :
    wait_word_meanings_start ⟨[], List.replicate 1000 ⟨"x"⟩, []⟩ "haus"
      = (.raisedQueueFull, ⟨[("haus", ⟨false, none⟩)], List.replicate 1000 ⟨"x"⟩, []⟩,
         [.storeRead "haus", .registryInsert "haus"]) := by
  have h := backpressure_synchronous.2.1 ⟨[], List.replicate 1000 ⟨"x"⟩, []⟩ "haus"
    rfl rfl (by rw [List.length_replicate]; exact Nat.le.refl)
  exact h

/-- Claim C10 (implicit): when the first owner's `put_nowait` raises because
the queue is full, the registry insertion — which textually precedes the push
— is not rolled back: the unresolved container stays in the registry, the
queue is unchanged (no descriptor was ever enqueued for the identity), and
every subsequent call for that identity joins that container and goes to
wait on it. -/
theorem registry_residue_on_queue_overflow
    (st : MeaningsState) (sst : SoundState) (word mp3Path : String)
    (h1 : storeQuery st.store word = [])
    (h2 : lookupEvent st.events word = none)
    (h3 : st.queue.length ≥ queueCapacity)
    (h4 : mp3Path ∉ sst.store)
    (h5 : lookupEvent sst.events word = none)
    (h6 : sst.queue.length ≥ queueCapacity) :
    (∃ st1 : MeaningsState,
      wait_word_meanings_start st word
        = (.raisedQueueFull, st1, [.storeRead word, .registryInsert word]) ∧
      lookupEvent st1.events word = some ⟨false, none⟩ ∧
      st1.queue = st.queue ∧
      st1.store = st.store ∧
      wait_word_meanings_start st1 word = (.waiting, st1, [.storeRead word])) ∧
    (∃ sst1 : SoundState,
      wait_word_sound_start sst word mp3Path
        = (.raisedQueueFull, sst1, [.storeRead mp3Path, .registryInsert word]) ∧
      lookupEvent sst1.events word = some ⟨false, none⟩ ∧
      sst1.queue = sst.queue ∧
      sst1.store = sst.store ∧
      wait_word_sound_start sst1 word mp3Path
        = (.waiting, sst1, [.storeRead mp3Path])) := by
  constructor
  · refine ⟨{ st with events := st.events ++ [(word, ⟨false, none⟩)] }, ?_, ?_, rfl, rfl, ?_⟩
    · have hacq : meaningsAcquire st word
          = (.queueFullErr, { st with events := st.events ++ [(word, ⟨false, none⟩)] }) :=
        acquireOrJoin_of_absent_full h2 h3 _
      simp [wait_word_meanings_start, h1, hacq]
    · rw [lookupEvent_append, h2, lookupEvent_single_self]
      rfl
    · have hlk : lookupEvent (st.events ++ [(word, ⟨false, none⟩)]) word
          = some ⟨false, none⟩ := by
        rw [lookupEvent_append, h2, lookupEvent_single_self]
        rfl
      have hacq2 : meaningsAcquire
            { st with events := st.events ++ [(word, ⟨false, none⟩)] } word
          = (.joined, { st with events := st.events ++ [(word, ⟨false, none⟩)] }) :=
        acquireOrJoin_of_present hlk _
      simp [wait_word_meanings_start, h1, hacq2]
  · refine ⟨{ sst with events := sst.events ++ [(word, ⟨false, none⟩)] }, ?_, ?_, rfl, rfl, ?_⟩
    · have hacq : soundAcquire sst word mp3Path
          = (.queueFullErr, { sst with events := sst.events ++ [(word, ⟨false, none⟩)] }) :=
        acquireOrJoin_of_absent_full h5 h6 _
      simp [wait_word_sound_start, h4, hacq]
    · rw [lookupEvent_append, h5, lookupEvent_single_self]
      rfl
    · have hlk : lookupEvent (sst.events ++ [(word, ⟨false, none⟩)]) word
          = some ⟨false, none⟩ := by
        rw [lookupEvent_append, h5, lookupEvent_single_self]
        rfl
      have hacq2 : soundAcquire
            { sst with events := sst.events ++ [(word, ⟨false, none⟩)] } word mp3Path
          = (.joined, { sst with events := sst.events ++ [(word, ⟨false, none⟩)] }) :=
        acquireOrJoin_of_present hlk _
      simp [wait_word_sound_start, h4, hacq2]

/-- Witness for C10 at a concrete state with a full queue (1000 descriptors)
and no entry for "haus". -/
theorem registry_residue_on_queue_overflow_witness :
    ∃ st1 : MeaningsState,
      wait_word_meanings_start ⟨[], List.replicate 1000 ⟨"x"⟩, []⟩ "haus"
        = (.raisedQueueFull, st1, [.storeRead "haus", .registryInsert "haus"]) ∧
      lookupEvent st1.events "haus" = some ⟨false, none⟩ ∧
      st1.queue = List.replicate 1000 ⟨"x"⟩ ∧
      st1.store = ([] : Store) ∧
      wait_word_meanings_start st1 "haus" = (.waiting, st1, [.storeRead "haus"]) :=
  (registry_residue_on_queue_overflow ⟨[], List.replicate 1000 ⟨"x"⟩, []⟩
    ⟨[], List.replicate 1000 ⟨"x", "x.mp3"⟩, []⟩ "haus" "haus.mp3"
    rfl rfl (by rw [List.length_replicate]; exact Nat.le.refl) (by decide) rfl
    (by rw [List.length_replicate]; exact Nat.le.refl)).1

/-- Counterexample to claim C7 as stated.  An unexpected EMPTY (but non-null)
backend result — a parsed `LLMWord` whose `meanings` list is empty — does not
resolve the signal to resolved-error: the `zip` loop persists nothing, the
commit succeeds, and `event.set()` runs with no exception, so at this
concrete dequeued task the container ends as `⟨true, none⟩`: resolved-ok. -/
theorem empty_backend_result_resolves_ok_counterexample :
    persistMeanings ⟨"haus", []⟩ = [] ∧
    generate_word_meanings (.ok (some ⟨"haus", []⟩)) none [] "haus" = ([], none) ∧
    lookupEvent (workerStep (fun t => t.word)
        (meaningsGen (.ok (some ⟨"haus", []⟩)) none)
        ⟨[("haus", ⟨false, none⟩)], [⟨"haus"⟩], []⟩).events "haus"
      = some ⟨true, none⟩ := by
  refine ⟨rfl, by decide, by decide⟩

/-- Claim C7 (amended): whenever the worker's per-task body raises — `gen`
stands for any outcome of the store re-check, backend invocation or
persistence, and `generate_word_meanings` is the meanings instance — the
task's container is resolved to the raised cause, never to resolved-ok; in
particular a NULL parsed object from the backend makes
`generate_word_meanings` raise.  An empty-but-non-null backend result
(`meanings = []`), however, raises nothing: it persists no rows and the
signal resolves to resolved-ok. -/
theorem generation_error_resolution_amended
    (st : MeaningsState) (task : WordMeaningTask) (rest : List WordMeaningTask)
    (c : TaskEventContainer)
    (hq : st.queue = task :: rest)
    (hc : lookupEvent st.events task.word = some c) :
    (∀ (gen : Store → WordMeaningTask → Store × Option Err) (e : Err),
      (gen st.store task).2 = some e →
      lookupEvent (workerStep (fun t => t.word) gen st).events task.word
          = some ⟨true, some e⟩ ∧
      (∀ c', lookupEvent (workerStep (fun t => t.word) gen st).events task.word
          = some c' → ¬(c'.event = true ∧ c'.exception = none))) ∧
    (∀ commit, storeQuery st.store task.word = [] →
      (generate_word_meanings (.ok none) commit st.store task.word).2
        = some .nullLLMObject) ∧
    (∀ lw : LLMWord, lw.meanings = [] → storeQuery st.store task.word = [] →
      generate_word_meanings (.ok (some lw)) none st.store task.word
        = (st.store, none) ∧
      lookupEvent (workerStep (fun t => t.word)
          (meaningsGen (.ok (some lw)) none) st).events task.word
        = some ⟨true, none⟩) := by
  refine ⟨?_, ?_, ?_⟩
  · intro gen e herr
    have hres : lookupEvent (workerStep (fun t => t.word) gen st).events task.word
        = some ⟨true, some e⟩ := by
      rw [workerStep_cons gen hq]
      simp only
      rw [lookupEvent_setResolved_self, hc, herr]
      rfl
    refine ⟨hres, ?_⟩
    intro c' hc' hcontra
    rw [hres] at hc'
    cases hc'
    exact Option.noConfusion hcontra.2
  · intro commit hmiss
    simp [generate_word_meanings, hmiss]
  · intro lw hempty hmiss
    have hgen : generate_word_meanings (.ok (some lw)) none st.store task.word
        = (st.store, none) := by
      simp [generate_word_meanings, hmiss, persistMeanings, hempty]
    refine ⟨hgen, ?_⟩
    rw [workerStep_cons (meaningsGen (.ok (some lw)) none) hq]
    simp only
    rw [lookupEvent_setResolved_self, hc]
    have hsnd : (meaningsGen (.ok (some lw)) none st.store task).2 = none := by
      simp [meaningsGen, hgen]
    rw [hsnd]
    rfl

/-- Witness for the amended C7: a failing backend call resolves the container
to that error, and an empty parsed result resolves it ok. -/
theorem generation_error_resolution_amended_witness :
    lookupEvent (workerStep (fun t => t.word)
        (meaningsGen (.error (.backendFailure "boom")) none)
        ⟨[("haus", ⟨false, none⟩)], [⟨"haus"⟩], []⟩).events "haus"
      = some ⟨true, some (.backendFailure "boom")⟩ ∧
    lookupEvent (workerStep (fun t => t.word)
        (meaningsGen (.ok (some ⟨"haus", []⟩)) none)
        ⟨[("haus", ⟨false, none⟩)], [⟨"haus"⟩], []⟩).events "haus"
      = some ⟨true, none⟩ := by
  have h := generation_error_resolution_amended
    ⟨[("haus", ⟨false, none⟩)], [⟨"haus"⟩], []⟩ ⟨"haus"⟩ [] ⟨false, none⟩ rfl rfl
  exact ⟨(h.1 (meaningsGen (.error (.backendFailure "boom")) none)
            (.backendFailure "boom") rfl).1,
         (h.2.2 ⟨"haus", []⟩ rfl rfl).2⟩

/-- Claim C2: an exception raised inside the worker's per-task handling is
captured into the task's container, the container's event is set, the worker
moves on to the next task (`workerStep` is total: the handler catches every
exception, so nothing escapes the loop), and every waiter on that identity —
the container is level-triggered, so waiters arriving before or after the
resolution read the same terminal state — re-raises that same captured
error. -/
theorem error_capture_and_fanout
    (gen : Store → WordMeaningTask → Store × Option Err)
    (st : MeaningsState) (task : WordMeaningTask) (rest : List WordMeaningTask)
    (c : TaskEventContainer) (e : Err)
    (hq : st.queue = task :: rest)
    (hc : lookupEvent st.events task.word = some c)
    (herr : (gen st.store task).2 = some e) :
    lookupEvent (workerStep (fun t => t.word) gen st).events task.word
        = some ⟨true, some e⟩ ∧
    (workerStep (fun t => t.word) gen st).queue = rest ∧
    (∀ store : Store,
      (wait_word_meanings_postwait ⟨true, some e⟩ store task.word).1
        = .raisedCaptured e) ∧
    (∀ (files : SoundStore) (mp3Path : String),
      (wait_word_sound_postwait ⟨true, some e⟩ files mp3Path).1
        = .raisedCaptured e) := by
  refine ⟨?_, ?_, ?_, ?_⟩
  · rw [workerStep_cons gen hq]
    simp only
    rw [lookupEvent_setResolved_self, hc, herr]
    rfl
  · rw [workerStep_cons gen hq]
  · intro store
    rfl
  · intro files mp3Path
    rfl

/-- Witness for C2 at a concrete task whose commit fails with a store
failure. -/
theorem error_capture_and_fanout_witness :
    lookupEvent (workerStep (fun t => t.word)
        (meaningsGen (.ok (some ⟨"haus", []⟩)) (some (.storeFailure "down")))
        ⟨[("haus", ⟨false, none⟩)], [⟨"haus"⟩], []⟩).events "haus"
      = some ⟨true, some (.storeFailure "down")⟩ ∧
    (wait_word_meanings_postwait ⟨true, some (.storeFailure "down")⟩ [] "haus").1
      = .raisedCaptured (.storeFailure "down") := by
  have h := error_capture_and_fanout
    (meaningsGen (.ok (some ⟨"haus", []⟩)) (some (.storeFailure "down")))
    ⟨[("haus", ⟨false, none⟩)], [⟨"haus"⟩], []⟩ ⟨"haus"⟩ [] ⟨false, none⟩
    (.storeFailure "down") rfl rfl rfl
  exact ⟨h.1, h.2.2.1 []⟩

/-- Counterexample to claim C6 as stated.  At the concrete state whose
registry holds a resolved-ok container for "haus" and whose store is empty,
the later call does check the Durable Store — its initial lookup runs
(`storeRead` effect at call start), it then joins and, the signal being
resolved ok, its post-wait re-read runs too (`storeRead` again), ending in
the no-results error rather than a return; so a call for an identity with a
resolved registry entry neither skips the store nor simply returns. -/
theorem resolved_entry_short_circuit_counterexample :
    lookupEvent [("haus", (⟨true, none⟩ : TaskEventContainer))] "haus"
      = some ⟨true, none⟩ ∧
    wait_word_meanings_start ⟨[("haus", ⟨true, none⟩)], [], []⟩ "haus"
      = (.waiting, ⟨[("haus", ⟨true, none⟩)], [], []⟩, [.storeRead "haus"]) ∧
    wait_word_meanings_postwait ⟨true, none⟩ [] "haus"
      = (.raisedNoResults, [.storeRead "haus"]) ∧
    Effect.storeRead "haus"
      ∈ (wait_word_meanings_start ⟨[("haus", ⟨true, none⟩)], [], []⟩ "haus").2.2 ∧
    Effect.storeRead "haus"
      ∈ (wait_word_meanings_postwait ⟨true, none⟩ [] "haus").2 := by
  refine ⟨by decide, by decide, by decide, by decide, by decide⟩

/-- Claim C6 (amended): a later call for an identity whose registry entry is
already resolved — in either cited kind, meanings or sound — re-invokes no
backend, enqueues nothing and mutates no registry state, and registry entries
are never removed by any step of either pipeline; but the call does check the
Durable Store: the initial lookup (row query / file-existence check) always
runs, returning the stored result when present, and when the joined signal
resolved without a captured exception the post-wait re-read runs as well;
only a resolved-error signal short-circuits past the re-read, raising the
captured failure with no further store access. -/
theorem resolved_entry_short_circuit_amended
    (st : MeaningsState) (sst : SoundState) (word mp3Path : String)
    (c cs : TaskEventContainer)
    (hc : lookupEvent st.events word = some c) (_hres : c.event = true)
    (hcs : lookupEvent sst.events word = some cs) (_hress : cs.event = true) :
    (storeQuery st.store word ≠ [] →
      wait_word_meanings_start st word
        = (.returned (storeQuery st.store word), st, [.storeRead word])) ∧
    (storeQuery st.store word = [] →
      wait_word_meanings_start st word = (.waiting, st, [.storeRead word])) ∧
    (∀ e, c.exception = some e →
      ∀ store : Store, wait_word_meanings_postwait c store word
        = (.raisedCaptured e, [])) ∧
    (c.exception = none →
      ∀ store : Store, (wait_word_meanings_postwait c store word).2
        = [.storeRead word]) ∧
    (∀ (l : Label String) (st' : MeaningsState),
      MeaningsStep st l st' → ∃ c', lookupEvent st'.events word = some c') ∧
    (mp3Path ∈ sst.store →
      wait_word_sound_start sst word mp3Path
        = (.returned, sst, [.storeRead mp3Path])) ∧
    (mp3Path ∉ sst.store →
      wait_word_sound_start sst word mp3Path
        = (.waiting, sst, [.storeRead mp3Path])) ∧
    (∀ e, cs.exception = some e →
      ∀ files : SoundStore, wait_word_sound_postwait cs files mp3Path
        = (.raisedCaptured e, [])) ∧
    (cs.exception = none →
      ∀ files : SoundStore, (wait_word_sound_postwait cs files mp3Path).2
        = [.storeRead mp3Path]) ∧
    (∀ (pathOf : String → String) (l : Label String) (sst' : SoundState),
      SoundStep pathOf sst l sst' → ∃ c', lookupEvent sst'.events word = some c') := by
  refine ⟨?_, ?_, ?_, ?_, ?_, ?_, ?_, ?_, ?_, ?_⟩
  · intro hrows
    simp [wait_word_meanings_start, hrows]
  · intro hrows
    have hacq : meaningsAcquire st word = (.joined, st) := acquireOrJoin_of_present hc _
    simp [wait_word_meanings_start, hrows, hacq]
  · intro e he store
    simp [wait_word_meanings_postwait, he]
  · intro he store
    by_cases hrows : storeQuery store word = [] <;>
      simp [wait_word_meanings_postwait, he, hrows]
  · intro l st' hstep
    exact kstep_entry_persists hstep hc
  · intro hfile
    simp [wait_word_sound_start, hfile]
  · intro hfile
    have hacq : soundAcquire sst word mp3Path = (.joined, sst) :=
      acquireOrJoin_of_present hcs _
    simp [wait_word_sound_start, hfile, hacq]
  · intro e he files
    simp [wait_word_sound_postwait, he]
  · intro he files
    by_cases hfile : mp3Path ∈ files <;>
      simp [wait_word_sound_postwait, he, hfile]
  · intro pathOf l sst' hstep
    exact kstep_entry_persists hstep hcs

/-- Witness for the amended C6 at concrete resolved-error entries for both
kinds. -/
theorem resolved_entry_short_circuit_amended_witness :
    wait_word_meanings_start
        ⟨[("haus", ⟨true, some (.backendFailure "boom")⟩)], [], []⟩ "haus"
      = (.waiting, ⟨[("haus", ⟨true, some (.backendFailure "boom")⟩)], [], []⟩,
         [.storeRead "haus"]) ∧
    wait_word_meanings_postwait ⟨true, some (.backendFailure "boom")⟩ [] "haus"
      = (.raisedCaptured (.backendFailure "boom"), []) ∧
    wait_word_sound_start
        ⟨[("haus", ⟨true, some (.backendFailure "boom")⟩)], [], []⟩ "haus" "haus.mp3"
      = (.waiting, ⟨[("haus", ⟨true, some (.backendFailure "boom")⟩)], [], []⟩,
         [.storeRead "haus.mp3"]) ∧
    wait_word_sound_postwait ⟨true, some (.backendFailure "boom")⟩ [] "haus.mp3"
      = (.raisedCaptured (.backendFailure "boom"), []) := by
  have h := resolved_entry_short_circuit_amended
    ⟨[("haus", ⟨true, some (.backendFailure "boom")⟩)], [], []⟩
    ⟨[("haus", ⟨true, some (.backendFailure "boom")⟩)], [], []⟩ "haus" "haus.mp3"
    ⟨true, some (.backendFailure "boom")⟩ ⟨true, some (.backendFailure "boom")⟩
    (by decide) rfl (by decide) rfl
  exact ⟨h.2.1 rfl, h.2.2.1 (.backendFailure "boom") rfl [],
         h.2.2.2.2.2.2.1 (by decide),
         h.2.2.2.2.2.2.2.1 (.backendFailure "boom") rfl []⟩

section TraceHelpers

variable {S P St : Type} [DecidableEq S]
variable {mkTask : S → P} {taskId : P → S} {hasIt : St → S → Bool}
variable {G : (St → P → St × Option Err) → Prop}

theorem isOwnedAcq_imp_isCreateAcq (id : S) (l : Label S)
    (h : isOwnedAcq id l = true) : isCreateAcq id l = true := by
  cases l with
  | acq i r =>
      cases r with
      | joined => simp [isOwnedAcq] at h
      | owned =>
          simp only [isOwnedAcq, decide_eq_true_eq] at h
          simp [isCreateAcq, h]
      | queueFullErr => simp [isOwnedAcq] at h
  | work i b => simp [isOwnedAcq] at h

theorem isBackendWork_imp_isWork (id : S) (l : Label S)
    (h : isBackendWork id l = true) : isWork id l = true := by
  cases l with
  | acq i r => simp [isBackendWork] at h
  | work i b =>
      simp only [isBackendWork, Bool.and_eq_true, decide_eq_true_eq] at h
      simp [isWork, h.1]

theorem kstep_acq_entry {st st' : KindState S P St} {id : S} {r : AcquireResult}
    (h : KStep mkTask taskId hasIt G st (.acq id r) st') :
    ∃ c, lookupEvent st'.events id = some c := by
  cases h with
  | acq =>
      cases hl : lookupEvent st.events id with
      | some c2 =>
          rw [acquireOrJoin_of_present hl]
          exact ⟨c2, hl⟩
      | none =>
          by_cases hfull : st.queue.length ≥ queueCapacity
          · rw [acquireOrJoin_of_absent_full hl hfull]
            refine ⟨⟨false, none⟩, ?_⟩
            rw [lookupEvent_append, hl, lookupEvent_single_self]
            rfl
          · rw [acquireOrJoin_of_absent_room hl (by omega)]
            refine ⟨⟨false, none⟩, ?_⟩
            rw [lookupEvent_append, hl, lookupEvent_single_self]
            rfl

theorem ktrace_entry_present_of_acq_mem {st st' : KindState S P St}
    {tr : List (Label S)} {id : S}
    (h : KTrace mkTask taskId hasIt G st tr st')
    (hmem : ∃ r, Label.acq id r ∈ tr) :
    ∃ c, lookupEvent st'.events id = some c := by
  induction h with
  | nil st =>
      obtain ⟨r, hr⟩ := hmem
      simp at hr
  | cons hstep htr ih =>
      obtain ⟨r, hr⟩ := hmem
      rcases List.mem_cons.mp hr with heq | hmem2
      · subst heq
        obtain ⟨c, hc⟩ := kstep_acq_entry hstep
        exact ktrace_entry_persists htr hc
      · exact ih ⟨r, hmem2⟩

end TraceHelpers

/-- Claim C1: for a kind whose pipeline starts with no registry entry and no
queued task for an identity, along every interleaving of caller and worker
steps at most one caller creates the entry, at most one task descriptor for
the identity is ever enqueued, at most one registry entry and one queued task
exist at any reachable state, the Generation Backend runs at most once for
the identity, the first caller to run the locked section and find no entry is
the one that creates the unresolved container, stores it, and (when the queue
has room) enqueues the one task descriptor, and every caller whose locked
section runs after some earlier one merely joins.  Instantiated by all three
kinds (the meanings instance is `MeaningsTrace`). -/
theorem single_flight_dedup
    {S P St : Type} [DecidableEq S] (mkTask : S → P) (taskId : P → S)
    (hasIt : St → S → Bool) (G : (St → P → St × Option Err) → Prop)
    (hmk : ∀ i, taskId (mkTask i) = i)
    (st0 stF : KindState S P St) (tr : List (Label S)) (id : S)
    (htr : KTrace mkTask taskId hasIt G st0 tr stF)
    (hno : lookupEvent st0.events id = none)
    (hq0 : queueCount taskId st0.queue id = 0) :
    createCount tr id ≤ 1 ∧
    ownedCount tr id ≤ 1 ∧
    entryCount stF.events id ≤ 1 ∧
    queueCount taskId stF.queue id ≤ 1 ∧
    workCount tr id ≤ ownedCount tr id ∧
    backendCount tr id ≤ 1 ∧
    (∀ pre r post, tr = pre ++ Label.acq id r :: post →
      (∀ r', Label.acq id r' ∉ pre) →
      r ≠ .joined ∧
      ∃ stm, KTrace mkTask taskId hasIt G st0 pre stm ∧
        lookupEvent stm.events id = none ∧
        (stm.queue.length < queueCapacity →
          r = .owned ∧
          KStep mkTask taskId hasIt G stm (Label.acq id .owned)
            { stm with events := stm.events ++ [(id, ⟨false, none⟩)]
                       queue := stm.queue ++ [mkTask id] })) ∧
    (∀ pre r post, tr = pre ++ Label.acq id r :: post →
      (∃ r', Label.acq id r' ∈ pre) → r = .joined) := by
  have hcnt0 : entryCount st0.events id = 0 := (lookupEvent_eq_none_iff _ _).mp hno
  have hentryF : entryCount stF.events id
      = entryCount st0.events id + createCount tr id := entryCount_ktrace htr id
  have hleF : entryCount stF.events id ≤ 1 :=
    entryCount_le_one_ktrace htr id (by omega)
  have hcreate : createCount tr id ≤ 1 := by omega
  have howned_le : ownedCount tr id ≤ createCount tr id :=
    countP_le_countP _ _ tr (isOwnedAcq_imp_isCreateAcq id)
  have hqeq : queueCount taskId stF.queue id + workCount tr id
      = queueCount taskId st0.queue id + ownedCount tr id :=
    queueCount_ktrace hmk htr id
  have hback_le : backendCount tr id ≤ workCount tr id :=
    countP_le_countP _ _ tr (isBackendWork_imp_isWork id)
  refine ⟨hcreate, by omega, hleF, by omega, by omega, by omega, ?_, ?_⟩
  · intro pre r post heq hnotpre
    subst heq
    obtain ⟨stm, stm', h1, h2, h3⟩ := ktrace_append_inv htr
    have hlkm : lookupEvent stm.events id = none :=
      lookupEvent_none_ktrace h1 hno (fun r' hr' => hnotpre r' hr')
    have hinv := kstep_acq_inv h2
    constructor
    · intro hcontra
      subst hcontra
      by_cases hfull : stm.queue.length ≥ queueCapacity
      · rw [acquireOrJoin_of_absent_full hlkm hfull] at hinv
        have hj := hinv.1
        simp at hj
      · rw [acquireOrJoin_of_absent_room hlkm (by omega)] at hinv
        have hj := hinv.1
        simp at hj
    · refine ⟨stm, h1, hlkm, ?_⟩
      intro hroom
      have hstep0 : KStep mkTask taskId hasIt G stm
          (Label.acq id (acquireOrJoin stm id (mkTask id)).1)
          (acquireOrJoin stm id (mkTask id)).2 := KStep.acq stm id
      rw [acquireOrJoin_of_absent_room hlkm hroom] at hinv hstep0
      exact ⟨hinv.1, hstep0⟩
  · intro pre r post heq hmem
    subst heq
    obtain ⟨stm, stm', h1, h2, h3⟩ := ktrace_append_inv htr
    obtain ⟨c, hcm⟩ := ktrace_entry_present_of_acq_mem h1 hmem
    have hinv := kstep_acq_inv h2
    rw [acquireOrJoin_of_present hcm] at hinv
    exact hinv.1

/-- Witness for C1: a concrete meanings-pipeline execution — two callers run
the locked section for "haus", then the worker processes the one queued task. -/
theorem single_flight_dedup_witness :
    ownedCount [Label.acq "haus" .owned, Label.acq "haus" .joined,
        Label.work "haus" true] "haus" ≤ 1 ∧
    backendCount [Label.acq "haus" .owned, Label.acq "haus" .joined,
        Label.work "haus" true] "haus" ≤ 1 := by
  have s1 : MeaningsStep ⟨[], [], []⟩ (.acq "haus" .owned)
      ⟨[("haus", ⟨false, none⟩)], [⟨"haus"⟩], []⟩ := by
    have h := meaningsStep_acq ⟨[], [], []⟩ "haus"
    have e1 : meaningsAcquire ⟨[], [], []⟩ "haus"
        = (.owned, ⟨[("haus", ⟨false, none⟩)], [⟨"haus"⟩], []⟩) := by decide
    rw [e1] at h
    exact h
  have s2 : MeaningsStep ⟨[("haus", ⟨false, none⟩)], [⟨"haus"⟩], []⟩
      (.acq "haus" .joined) ⟨[("haus", ⟨false, none⟩)], [⟨"haus"⟩], []⟩ := by
    have h := meaningsStep_acq ⟨[("haus", ⟨false, none⟩)], [⟨"haus"⟩], []⟩ "haus"
    have e2 : meaningsAcquire ⟨[("haus", ⟨false, none⟩)], [⟨"haus"⟩], []⟩ "haus"
        = (.joined, ⟨[("haus", ⟨false, none⟩)], [⟨"haus"⟩], []⟩) := by decide
    rw [e2] at h
    exact h
  have s3 : MeaningsStep ⟨[("haus", ⟨false, none⟩)], [⟨"haus"⟩], []⟩
      (.work "haus" true)
      (meaningsWorkerStep (.ok (some ⟨"haus", []⟩)) none
        ⟨[("haus", ⟨false, none⟩)], [⟨"haus"⟩], []⟩) :=
    meaningsStep_work _ ⟨"haus"⟩ [] (.ok (some ⟨"haus", []⟩)) none rfl
  have htr : MeaningsTrace ⟨[], [], []⟩
      [Label.acq "haus" .owned, Label.acq "haus" .joined, Label.work "haus" true]
      (meaningsWorkerStep (.ok (some ⟨"haus", []⟩)) none
        ⟨[("haus", ⟨false, none⟩)], [⟨"haus"⟩], []⟩) :=
    KTrace.cons s1 (KTrace.cons s2 (KTrace.cons s3 (KTrace.nil _)))
  have h := single_flight_dedup (fun w => (⟨w⟩ : WordMeaningTask)) (fun t => t.word)
    meaningsHas MeaningsGens (fun i => rfl) ⟨[], [], []⟩ _ _ "haus" htr rfl rfl
  exact ⟨h.2.1, h.2.2.2.2.2.1⟩

/-- Claim C9: within one kind, the single worker dequeues tasks in exactly the
order they were enqueued — the pop sequence is the prefix of the push
sequence — so for a task A enqueued before a task B with a different
identity, A's per-task processing (store re-check and backend invocation,
which the worker runs to completion before popping anything else) starts
before B is dequeued.  Kinds live in fully separate `KindState`s, so no
cross-kind ordering exists in the model. -/
theorem fifo_per_kind
    {S P St : Type} [DecidableEq S] (mkTask : S → P) (taskId : P → S)
    (hasIt : St → S → Bool) (G : (St → P → St × Option Err) → Prop)
    (hmk : ∀ i, taskId (mkTask i) = i)
    (st0 stF : KindState S P St) (tr : List (Label S))
    (htr : KTrace mkTask taskId hasIt G st0 tr stF)
    (hq0 : st0.queue = []) :
    popsOf tr = (ownsOf tr).take (popsOf tr).length ∧
    (∀ A B : S, (ownsOf tr).indexOf A < (ownsOf tr).indexOf B → B ∈ popsOf tr →
      A ∈ popsOf tr ∧ (popsOf tr).indexOf A < (popsOf tr).indexOf B) := by
  have hinv := fifo_ktrace hmk htr
  rw [hq0] at hinv
  simp only [List.map_nil, List.nil_append] at hinv
  have htake : popsOf tr = (ownsOf tr).take (popsOf tr).length := by
    rw [hinv, List.take_left]
  refine ⟨htake, ?_⟩
  intro A B hAB hB
  have hBo : (ownsOf tr).indexOf B = (popsOf tr).indexOf B := by
    rw [hinv]
    exact List.indexOf_append_of_mem hB
  have hBlt : (popsOf tr).indexOf B < (popsOf tr).length :=
    List.indexOf_lt_length.mpr hB
  by_cases hApop : A ∈ popsOf tr
  · have hAo : (ownsOf tr).indexOf A = (popsOf tr).indexOf A := by
      rw [hinv]
      exact List.indexOf_append_of_mem hApop
    exact ⟨hApop, by omega⟩
  · exfalso
    have hAo : (ownsOf tr).indexOf A
        = (popsOf tr).length + (List.map taskId stF.queue).indexOf A := by
      rw [hinv]
      exact List.indexOf_append_of_not_mem hApop
    omega

/-- Witness for C9: a concrete meanings-pipeline execution enqueueing "a"
then "b" and letting the worker process both. -/
theorem fifo_per_kind_witness :
    "a" ∈ popsOf [Label.acq "a" .owned, Label.acq "b" .owned,
        Label.work "a" true, Label.work "b" true] ∧
    (popsOf [Label.acq "a" .owned, Label.acq "b" .owned,
        Label.work "a" true, Label.work "b" true]).indexOf "a"
      < (popsOf [Label.acq "a" .owned, Label.acq "b" .owned,
          Label.work "a" true, Label.work "b" true]).indexOf "b" := by
  have s1 : MeaningsStep ⟨[], [], []⟩ (.acq "a" .owned)
      ⟨[("a", ⟨false, none⟩)], [⟨"a"⟩], []⟩ := by
    have h := meaningsStep_acq ⟨[], [], []⟩ "a"
    have e1 : meaningsAcquire ⟨[], [], []⟩ "a"
        = (.owned, ⟨[("a", ⟨false, none⟩)], [⟨"a"⟩], []⟩) := by decide
    rw [e1] at h
    exact h
  have s2 : MeaningsStep ⟨[("a", ⟨false, none⟩)], [⟨"a"⟩], []⟩ (.acq "b" .owned)
      ⟨[("a", ⟨false, none⟩), ("b", ⟨false, none⟩)], [⟨"a"⟩, ⟨"b"⟩], []⟩ := by
    have h := meaningsStep_acq ⟨[("a", ⟨false, none⟩)], [⟨"a"⟩], []⟩ "b"
    have e2 : meaningsAcquire ⟨[("a", ⟨false, none⟩)], [⟨"a"⟩], []⟩ "b"
        = (.owned, ⟨[("a", ⟨false, none⟩), ("b", ⟨false, none⟩)], [⟨"a"⟩, ⟨"b"⟩], []⟩) := by
      decide
    rw [e2] at h
    exact h
  have s3 : MeaningsStep ⟨[("a", ⟨false, none⟩), ("b", ⟨false, none⟩)], [⟨"a"⟩, ⟨"b"⟩], []⟩
      (.work "a" true)
      ⟨[("a", ⟨true, none⟩), ("b", ⟨false, none⟩)], [⟨"b"⟩], []⟩ := by
    have h := meaningsStep_work
      ⟨[("a", ⟨false, none⟩), ("b", ⟨false, none⟩)], [⟨"a"⟩, ⟨"b"⟩], []⟩
      ⟨"a"⟩ [⟨"b"⟩] (.ok (some ⟨"a", []⟩)) none rfl
    have e3 : meaningsWorkerStep (.ok (some ⟨"a", []⟩)) none
        ⟨[("a", ⟨false, none⟩), ("b", ⟨false, none⟩)], [⟨"a"⟩, ⟨"b"⟩], []⟩
        = ⟨[("a", ⟨true, none⟩), ("b", ⟨false, none⟩)], [⟨"b"⟩], []⟩ := by decide
    rw [e3] at h
    exact h
  have s4 : MeaningsStep ⟨[("a", ⟨true, none⟩), ("b", ⟨false, none⟩)], [⟨"b"⟩], []⟩
      (.work "b" true)
      (meaningsWorkerStep (.ok (some ⟨"b", []⟩)) none
        ⟨[("a", ⟨true, none⟩), ("b", ⟨false, none⟩)], [⟨"b"⟩], []⟩) :=
    meaningsStep_work _ ⟨"b"⟩ [] (.ok (some ⟨"b", []⟩)) none rfl
  have htr : MeaningsTrace ⟨[], [], []⟩
      [Label.acq "a" .owned, Label.acq "b" .owned, Label.work "a" true,
        Label.work "b" true]
      (meaningsWorkerStep (.ok (some ⟨"b", []⟩)) none
        ⟨[("a", ⟨true, none⟩), ("b", ⟨false, none⟩)], [⟨"b"⟩], []⟩) :=
    KTrace.cons s1 (KTrace.cons s2 (KTrace.cons s3 (KTrace.cons s4 (KTrace.nil _))))
  have h := fifo_per_kind (fun w => (⟨w⟩ : WordMeaningTask)) (fun t => t.word)
    meaningsHas MeaningsGens (fun i => rfl) ⟨[], [], []⟩ _ _ htr rfl
  exact h.2 "a" "b" (by decide) (by decide)

end Klang
